import Mathlib

/-!
# Verification of the WebDataScraper extraction-and-pagination engine

A shallow embedding of `src/scraper.py` (class `WebScraper`, plus the
`save_as_json` / `save_as_csv` serializers), with theorems checking the
natural-language specification against it.

Modelling conventions:
* The HTML parse tree and CSS selector engine are external collaborators
  (`BeautifulSoup` / `soupsieve`).  A `Node` therefore carries its
  attribute map, the ordered sequence of its descendant text strings
  (what BeautifulSoup's `_all_strings` yields), and the result of a CSS
  `select` call as a function from selector strings to node lists.
* HTTP transport is the external function `fetch : String → Option Node`;
  `none` models any `requests.RequestException` (network error, timeout,
  non-2xx after `raise_for_status`), which `fetch_page` catches and turns
  into `None`.
* Python strings are Lean `String`s; the character-level operations
  (`str.strip`, `str.rstrip("/")`, `str.rsplit("/", 1)`, `urllib.parse`)
  are re-implemented below on `List Char`.
* The `while current_url:` loop is embedded with explicit fuel; running
  out of fuel returns the state accumulated so far (claims are stated
  either for all fuel or for sufficiently large fuel).
* Records are ordered association lists (Python dicts preserve insertion
  order; field names in one record are pairwise distinct keys).
-/

namespace WebScraper

/-! ## Python string primitives -/

/-- Python `str.strip()` whitespace class (ASCII part): space, tab,
newline, carriage return, vertical tab, form feed. -/
def isPyWs (c : Char) : Bool :=
  c = ' ' || c = '\t' || c = '\n' || c = '\r' || c = '\x0b' || c = '\x0c'

/-- `str.strip()` on a character list: remove leading and trailing
whitespace. -/
def stripChars (l : List Char) : List Char :=
  ((l.dropWhile isPyWs).reverse.dropWhile isPyWs).reverse

/-- Python `s.strip()`. -/
def pyStrip (s : String) : String :=
  ⟨stripChars s.data⟩

/-- Python `s.rstrip("/")`: remove all trailing `'/'` characters. -/
def pyRstripSlash (s : String) : String :=
  ⟨(s.data.reverse.dropWhile (fun c => c = '/')).reverse⟩

/-- Python `s.rsplit("/", 1)[0]`: everything before the last `'/'`,
or `s` itself when `s` contains no `'/'`. -/
def rsplitBeforeSlash (s : String) : String :=
  let r := s.data.reverse.dropWhile (fun c => c ≠ '/')
  if r.isEmpty then s else ⟨r.tail.reverse⟩

/-! ## HTML nodes (external parse/select collaborator) -/

/-- A parsed HTML node, abstracting BeautifulSoup's `Tag`.
`attrs` is the attribute dictionary, `texts` the ordered descendant
text strings (`NavigableString`s in document order), and `sel` the
CSS-selection capability `select(node, selector)`. -/
inductive Node : Type where
  | mk : List (String × String) → List String → (String → List Node) → Node

/-- Attribute dictionary of a node. -/
def Node.attrs : Node → List (String × String)
  | .mk a _ _ => a

/-- Descendant text strings of a node, in document order. -/
def Node.texts : Node → List String
  | .mk _ t _ => t

/-- `node.select(selector)`: all matching descendants, in document order. -/
def Node.sel : Node → String → List Node
  | .mk _ _ s => s

/-- BeautifulSoup `tag.get(name)`: attribute lookup, `None` if absent. -/
def Node.get (n : Node) (name : String) : Option String :=
  (n.attrs.find? (fun p => p.1 = name)).map (·.2)

/-- BeautifulSoup `tag.get_text(strip=True)`: each descendant string is
`strip()`ed and the results are concatenated with no separator
(strings that become empty contribute nothing either way). -/
def Node.getTextStrip (n : Node) : String :=
  String.join (n.texts.map pyStrip)

/-- `tag.select_one(selector)`: first match of `select`, if any. -/
def Node.selectOne (n : Node) (selector : String) : Option Node :=
  (n.sel selector).head?

/-! ## Field rules and values -/

/-- One field rule from the config: `{selector, attr?, multiple?}`
(`field_cfg["selector"]`, `field_cfg.get("attr")`,
`bool(field_cfg.get("multiple", False))`). -/
structure FieldCfg where
  selector : String
  attr : Option String
  multiple : Bool
deriving DecidableEq, Repr

/-- An extracted field value: `extract_field` returns either a single
string or a list of strings. -/
inductive Value : Type where
  | str : String → Value
  | list : List String → Value
deriving DecidableEq, Repr

/-- Python truthiness of the `attr` config entry: `if attr:` is false
both for a missing key (`None`) and for an empty string. -/
def truthyStr : Option String → Option String
  | none => none
  | some s => if s = "" then none else some s

/-- `WebScraper.extract_field(item, field_cfg)` (src/scraper.py:38-56).
With `multiple` set, maps every selected node to one string
(`el.get(attr, "").strip()` or `el.get_text(strip=True)`); otherwise
takes the first selected node, returning `""` when there is none. -/
def extract_field (item : Node) (cfg : FieldCfg) : Value :=
  if cfg.multiple then
    let elements := item.sel cfg.selector
    match truthyStr cfg.attr with
    | some a => .list (elements.map (fun el => pyStrip ((el.get a).getD "")))
    | none => .list (elements.map Node.getTextStrip)
  else
    match (item.sel cfg.selector).head? with
    | none => .str ""
    | some element =>
      match truthyStr cfg.attr with
      | some a => .str (pyStrip ((element.get a).getD ""))
      | none => .str (element.getTextStrip)

/-! ## Next-URL resolution (src/scraper.py:93-111) -/

/-- Python `s.startswith(p)`. -/
def startsWithS (p s : String) : Bool :=
  p.data.isPrefixOf s.data

/-- Python `s.endswith("/")`. -/
def endsWithSlash (s : String) : Bool :=
  s.data.getLast? == some '/'

/-- `urllib.parse` scheme characters: ASCII letters, digits, `+`, `-`, `.`. -/
def schemeChar (c : Char) : Bool :=
  c.isAlpha || c.isDigit || c = '+' || c = '-' || c = '.'

/-- `urllib.parse.urlsplit` scheme extraction: when the text up to the
first `':'` is a nonempty run of scheme characters starting with an
ASCII letter, it is the scheme (lower-cased) and the remainder follows
the `':'`; otherwise the scheme is empty and nothing is consumed. -/
def pySplitScheme (l : List Char) : List Char × List Char :=
  match l.findIdx? (fun c => c = ':') with
  | some i =>
    if 0 < i ∧ l.head?.any Char.isAlpha ∧ (l.take i).all schemeChar then
      ((l.take i).map Char.toLower, l.drop (i + 1))
    else ([], l)
  | none => ([], l)

/-- `urllib.parse` netloc extraction (`_splitnetloc`): when the remainder
after the scheme starts with `//`, the netloc runs from there up to the
next `/`, `?` or `#`. -/
def pyNetlocOf (l : List Char) : List Char :=
  if ['/', '/'].isPrefixOf l then
    (l.drop 2).takeWhile (fun c => !(c = '/' || c = '?' || c = '#'))
  else []

/-- `urlparse(cur).scheme`. -/
def pyScheme (cur : String) : List Char :=
  (pySplitScheme cur.data).1

/-- `urlparse(cur).netloc`. -/
def pyNetloc (cur : String) : List Char :=
  pyNetlocOf (pySplitScheme cur.data).2

/-- `urlunparse((scheme, netloc, "", "", "", ""))`: `//netloc` when the
netloc is nonempty, prefixed by `scheme:` when the scheme is nonempty. -/
def urlunparseBase (sch nl : List Char) : List Char :=
  if sch.isEmpty then (if nl.isEmpty then [] else '/' :: '/' :: nl)
  else sch ++ ':' :: (if nl.isEmpty then [] else '/' :: '/' :: nl)

/-- Next-URL resolution exactly as written in `WebScraper.scrape`
(src/scraper.py:94-111): absolute hrefs pass through; else if the current
URL ends in `/` and the href starts with `/`, trailing slashes of the
current URL are stripped and the href appended; else a root-relative href
is appended to `urlunparse((scheme, netloc, "", "", "", ""))`; else a
relative href is appended to the current URL (directory part when the
current URL does not end in `/`, via `rsplit("/", 1)[0] + "/"`). -/
def resolveNext (cur h : String) : String :=
  if startsWithS "http://" h || startsWithS "https://" h then h
  else if endsWithSlash cur && startsWithS "/" h then pyRstripSlash cur ++ h
  else if startsWithS "/" h then (⟨urlunparseBase (pyScheme cur) (pyNetloc cur)⟩ : String) ++ h
  else if endsWithSlash cur then cur ++ h
  else rsplitBeforeSlash cur ++ "/" ++ h

/-! ### The resolution algorithm as worded in spec §4.2 -/

/-- Spec §4.2 branch 2 wording: `cur` with all trailing slashes stripped. -/
def stripTrailingSlashes (s : String) : String :=
  ⟨(s.data.reverse.dropWhile (fun c => c = '/')).reverse⟩

/-- Spec §4.2 branch 4 wording: everything in `cur` up to and including
the last `/`. -/
def upToLastSlash (s : String) : String :=
  ⟨(s.data.reverse.dropWhile (fun c => c ≠ '/')).reverse⟩

/-- Spec §4.2 branch 3 wording: the scheme plus authority of `cur`
(path, query and fragment dropped). -/
def schemeAuthority (cur : String) : String :=
  (⟨pyScheme cur⟩ : String) ++ "://" ++ (⟨pyNetloc cur⟩ : String)

/-- The four-branch next-URL resolution algorithm, worded as in spec §4.2
(claim C1's description of the algorithm). -/
def resolveNextSpec (cur h : String) : String :=
  if startsWithS "http://" h || startsWithS "https://" h then h
  else if endsWithSlash cur && startsWithS "/" h then stripTrailingSlashes cur ++ h
  else if startsWithS "/" h then schemeAuthority cur ++ h
  else if endsWithSlash cur then cur ++ h
  else upToLastSlash cur ++ h

example : resolveNext "http://example.com/items/" "page2" = "http://example.com/items/page2" := by decide
example : resolveNext "http://example.com/items" "/p2" = "http://example.com/p2" := by decide
example : resolveNext "http://example.com/a/" "/p2" = "http://example.com/a/p2" := by decide
example : resolveNext "http://example.com" "page2" = "http://page2" := by decide
example : resolveNext "x" "https://other.org/q" = "https://other.org/q" := by decide

/-! ## The scrape loop (src/scraper.py:58-117) -/

/-- The configuration as read in `WebScraper.__init__` and `scrape`:
`max_pages` is `int(self.pagination.get("max_pages", 0))` and
`next_page_selector` is `self.pagination.get("next_page_selector")`. -/
structure ScrapeConfig where
  start_url : String
  item_selector : String
  fields : List (String × FieldCfg)
  max_pages : Int
  next_page_selector : Option String

/-- `max_pages = int(self.pagination.get("max_pages", 0)) or None`
(src/scraper.py:64): zero means unbounded. -/
def ScrapeConfig.maxPages (cfg : ScrapeConfig) : Option Int :=
  if cfg.max_pages = 0 then none else some cfg.max_pages

/-- The next-page selector as tested by `if not next_selector:`
(src/scraper.py:86): a missing key and an empty string both disable
pagination. -/
def ScrapeConfig.nextSel (cfg : ScrapeConfig) : Option String :=
  truthyStr cfg.next_page_selector

/-- One `row` of the inner loop (src/scraper.py:76-80): one entry per
configured field, in field-mapping order. -/
def buildRow (fields : List (String × FieldCfg)) (item : Node) : List (String × Value) :=
  fields.map (fun p => (p.1, extract_field item p.2))

/-- The `max_pages` termination check
`max_pages is not None and page_index >= max_pages` (src/scraper.py:83). -/
def maxReached (cfg : ScrapeConfig) (pageIndex : Nat) : Bool :=
  match cfg.maxPages with
  | some n => (pageIndex : Int) ≥ n
  | none => false

/-- The next-link lookup (src/scraper.py:89-93): the first node matching
the next-page selector must exist and carry a truthy (nonempty) `href`. -/
def hrefOf (soup : Node) (sel : String) : Option String :=
  match soup.selectOne sel with
  | none => none
  | some link => truthyStr (link.get "href")

/-- Mutable state of the `while current_url:` loop. -/
structure LoopState where
  results : List (List (String × Value))
  currentUrl : String
  pageIndex : Nat

/-- The `while current_url:` loop of `WebScraper.scrape`
(src/scraper.py:67-114), with explicit fuel standing in for the possibly
unbounded iteration.  Returns the accumulated records together with the
ordered list of URLs passed to `fetch_page` (the fetch trace).  Running
out of fuel returns what has been accumulated, an artifact of the
embedding that claims quantify away. -/
def scrapeGo (fetch : String → Option Node) (cfg : ScrapeConfig) :
    Nat → LoopState → List (List (String × Value)) × List String
  | 0, st => (st.results, [])
  | fuel + 1, st =>
    if st.currentUrl = "" then (st.results, [])
    else
      match fetch st.currentUrl with
      | none => (st.results, [st.currentUrl])
      | some soup =>
        let results := st.results ++ (soup.sel cfg.item_selector).map (buildRow cfg.fields)
        if maxReached cfg st.pageIndex then (results, [st.currentUrl])
        else
          match cfg.nextSel with
          | none => (results, [st.currentUrl])
          | some sel =>
            match hrefOf soup sel with
            | none => (results, [st.currentUrl])
            | some href =>
              let rec1 := scrapeGo fetch cfg fuel
                ⟨results, resolveNext st.currentUrl href, st.pageIndex + 1⟩
              (rec1.1, st.currentUrl :: rec1.2)

/-- `WebScraper.scrape()` (src/scraper.py:58-117): run the loop from the
start URL with `page_index = 1` and no accumulated records. -/
def scrape (fetch : String → Option Node) (cfg : ScrapeConfig) (fuel : Nat) :
    List (List (String × Value)) × List String :=
  scrapeGo fetch cfg fuel ⟨[], cfg.start_url, 1⟩

/-! ## Output serialization (src/scraper.py:120-142) -/

/-- Cell flattening in `save_as_csv` (src/scraper.py:138-140): list
values are joined with `", "`, strings pass through. -/
def flattenCell : Value → String
  | .str s => s
  | .list l => String.intercalate ", " l

/-- Python dict lookup on a record. -/
def lookupVal (row : List (String × Value)) (k : String) : Option Value :=
  (row.find? (fun p => p.1 = k)).map (·.2)

/-- One data row as produced by `csv.DictWriter.writerow`: one cell per
field name; a key missing from the record falls back to the writer's
`restval` (`None`), which the csv module writes as an empty cell. -/
def csvRow (fieldnames : List String) (row : List (String × Value)) : List String :=
  fieldnames.map (fun k => ((lookupVal row k).map flattenCell).getD "")

/-- `save_as_csv` (src/scraper.py:127-142), modelled at cell level:
`none` when there are no rows (the function returns after a warning,
creating no file); otherwise the header row — the first record's keys —
followed by one flattened row per record. -/
def save_as_csv (rows : List (List (String × Value))) : Option (List (List String)) :=
  match rows with
  | [] => none
  | r0 :: _ =>
    let fieldnames := r0.map Prod.fst
    some (fieldnames :: rows.map (csvRow fieldnames))

/-! ## JSON serialization (`json.dump(rows, f, ensure_ascii=False, indent=2)`) -/

/-- Lower-case hexadecimal digit (for `\uNNNN` escapes). -/
def hexDigit (n : Nat) : Char :=
  if n < 10 then Char.ofNat ('0'.toNat + n) else Char.ofNat ('a'.toNat + n - 10)

/-- Escaping of one character by Python's JSON encoder with
`ensure_ascii=False`: backslash, double quote and the named control
characters get two-character escapes, other control characters a
`\u00XX` escape, everything else passes through. -/
def jsonEscapeChar (c : Char) : String :=
  if c = '\\' then "\\\\"
  else if c = '\x22' then "\\\x22"
  else if c = '\n' then "\\n"
  else if c = '\r' then "\\r"
  else if c = '\t' then "\\t"
  else if c = '\x08' then "\\b"
  else if c = '\x0c' then "\\f"
  else if c.toNat < 32 then "\\u00" ++ String.mk [hexDigit (c.toNat / 16), hexDigit (c.toNat % 16)]
  else String.singleton c

/-- A JSON string literal. -/
def jsonQuote (s : String) : String :=
  "\x22" ++ String.join (s.data.map jsonEscapeChar) ++ "\x22"

/-- Indentation prefix at nesting depth `d` for `indent=2`. -/
def jsonIndent (d : Nat) : String :=
  String.mk (List.replicate (2 * d) ' ')

/-- A JSON array at depth `d` from already-rendered elements, following
`json.dump` with `indent=2`: `[]` when empty, otherwise one element per
line, separated by `,`, indented one level deeper. -/
def jsonArray (elems : List String) (d : Nat) : String :=
  if elems.isEmpty then "[]"
  else "[\n" ++ jsonIndent (d + 1) ++ String.intercalate (",\n" ++ jsonIndent (d + 1)) elems
    ++ "\n" ++ jsonIndent d ++ "]"

/-- A JSON object at depth `d` from already-rendered `"key": value`
entries, following `json.dump` with `indent=2`. -/
def jsonObject (entries : List String) (d : Nat) : String :=
  if entries.isEmpty then "\x7b\x7d"
  else "\x7b\n" ++ jsonIndent (d + 1) ++ String.intercalate (",\n" ++ jsonIndent (d + 1)) entries
    ++ "\n" ++ jsonIndent d ++ "\x7d"

/-- One extracted value as JSON (strings stay strings, lists stay
arrays of strings). -/
def jsonValue (d : Nat) : Value → String
  | .str s => jsonQuote s
  | .list l => jsonArray (l.map jsonQuote) d

/-- One record as a JSON object, fields in record order. -/
def jsonRecord (d : Nat) (row : List (String × Value)) : String :=
  jsonObject (row.map (fun p => jsonQuote p.1 ++ ": " ++ jsonValue (d + 1) p.2)) d

/-- `save_as_json` (src/scraper.py:120-124): the document written is
`json.dump(rows, f, ensure_ascii=False, indent=2)`; the file is written
unconditionally, so the model is total. -/
def save_as_json (rows : List (List (String × Value))) : String :=
  jsonArray (rows.map (jsonRecord 1)) 0

/-- The output step of `main` (src/scraper.py:177-181): the JSON document
is produced on every run; the CSV document only when `save_as_csv`
produces one. -/
def mainOutputs (rows : List (List (String × Value))) :
    String × Option (List (List String)) :=
  (save_as_json rows, save_as_csv rows)

example : save_as_json [] = "[]" := by decide
example : save_as_json [[("a", .str "b")]]
    = "[\n  \x7b\n    \x22a\x22: \x22b\x22\n  \x7d\n]" := by decide
example : save_as_csv [[("tags", .list ["a", "b"])]] = some [["tags"], ["a, b"]] := by decide

/-! ## Spec-side definition of "visible text" (claim C5) -/

/-- One collapsing step: runs of whitespace become a single space
(structural recursion on the character list). -/
def collapseRuns : List Char → List Char
  | [] => []
  | [c] => [if isPyWs c then ' ' else c]
  | c1 :: c2 :: rest =>
    if isPyWs c1 && isPyWs c2 then collapseRuns (c2 :: rest)
    else (if isPyWs c1 then ' ' else c1) :: collapseRuns (c2 :: rest)

/-- Modelled from the spec (§4.1): the "trimmed, whitespace-collapsed
visible text content of the node" — descendant text nodes concatenated,
internal runs of whitespace/newlines collapsed the way a browser would
render visible text, leading/trailing whitespace removed. -/
def browserVisibleText (n : Node) : String :=
  ⟨stripChars (collapseRuns (String.join n.texts).data)⟩

/-! ## Test fixtures -/

/-- A leaf node: attributes, descendant texts, no selectable children. -/
def leafNode (attrs : List (String × String)) (texts : List String) : Node :=
  .mk attrs texts (fun _ => [])

/-- An item whose every CSS selection returns the given nodes. -/
def itemWith (results : List Node) : Node :=
  .mk [] [] (fun _ => results)

/-- An item on which every CSS selection comes back empty. -/
def itemEmptySel : Node := itemWith []

/-- A node with a text but no attributes. -/
def nodeNoAttr : Node := leafNode [] ["t"]

/-- A node whose text is split across two descendant text nodes with a
structural space in between (`<p>Hello <b>world</b></p>`). -/
def nodeHelloWorld : Node := leafNode [] ["Hello ", "world"]

/-! ## Claim theorems -/

/-- C4: `extract_field` never raises for a missing match or attribute:
with `multiple=false` and no matching node it returns `""`; with
`multiple=true` and no matching nodes it returns the empty sequence;
attribute extraction on a node lacking the attribute yields `""`; and
with `multiple=true` each matched node contributes exactly one string
(empty entries are never dropped). -/
theorem extract_field_missing_safe (item : Node) (cfg : FieldCfg) :
    (cfg.multiple = false → item.sel cfg.selector = [] →
      extract_field item cfg = .str "") ∧
    (cfg.multiple = true → item.sel cfg.selector = [] →
      extract_field item cfg = .list []) ∧
    (∀ a element, cfg.multiple = false → truthyStr cfg.attr = some a →
      (item.sel cfg.selector).head? = some element → element.get a = none →
      extract_field item cfg = .str "") ∧
    (∀ a, cfg.multiple = true → truthyStr cfg.attr = some a →
      ∃ vals, extract_field item cfg = .list vals ∧
        List.Forall₂ (fun el v => el.get a = none → v = "")
          (item.sel cfg.selector) vals) ∧
    (cfg.multiple = true → ∃ vals, extract_field item cfg = .list vals ∧
      vals.length = (item.sel cfg.selector).length) := by
  refine ⟨?_, ?_, ?_, ?_, ?_⟩
  · intro hm hsel
    simp [extract_field, hm, hsel]
  · intro hm hsel
    simp only [extract_field, hm, if_true, hsel, List.map_nil]
    cases truthyStr cfg.attr <;> rfl
  · intro a element hm ha hhead hget
    simp only [extract_field, hm, Bool.false_eq_true, if_false, hhead, ha, hget, Option.getD_none]
    rfl
  · intro a hm ha
    simp only [extract_field, hm, if_true, ha]
    refine ⟨_, rfl, ?_⟩
    rw [List.forall₂_map_right_iff]
    rw [List.forall₂_same]
    intro el _ hget
    rw [hget]
    rfl
  · intro hm
    simp only [extract_field, hm, if_true]
    cases truthyStr cfg.attr <;> exact ⟨_, rfl, by simp⟩

/-- Witness for C4 at concrete inputs: a selector with no match in
single and multiple mode, and attribute extraction on a node lacking
the attribute. -/
theorem extract_field_missing_safe_witness :
    extract_field itemEmptySel ⟨"x", none, false⟩ = .str "" ∧
    extract_field itemEmptySel ⟨"x", some "href", true⟩ = .list [] ∧
    extract_field (itemWith [nodeNoAttr]) ⟨"x", some "data-id", false⟩ = .str "" := by
  refine ⟨?_, ?_, ?_⟩
  · exact (extract_field_missing_safe itemEmptySel ⟨"x", none, false⟩).1 rfl rfl
  · exact (extract_field_missing_safe itemEmptySel ⟨"x", some "href", true⟩).2.1 rfl rfl
  · exact (extract_field_missing_safe (itemWith [nodeNoAttr]) ⟨"x", some "data-id", false⟩).2.2.1
      "data-id" nodeNoAttr rfl (by decide) rfl rfl

/-- C5 counterexample: on a node whose visible text is split across two
descendant text nodes (`<p>Hello <b>world</b></p>`), the code produces
`"Helloworld"` — `get_text(strip=True)` strips each descendant string and
concatenates with no separator — not the browser rendering
`"Hello world"` the claim describes. -/
theorem extract_field_text_not_browser :
    extract_field (itemWith [nodeHelloWorld]) ⟨"p", none, false⟩
      ≠ .str (browserVisibleText nodeHelloWorld) := by decide

/-- C5 (amended): for every matched node whose rule has no attribute set,
the extracted string is the concatenation of the node's descendant text
strings, each stripped of leading/trailing whitespace, joined with no
separator — internal whitespace runs inside one text node are preserved
and inter-node structural whitespace is removed, not collapsed, both in
single and in multiple mode. -/
theorem extract_field_text_strip_join (item : Node) (cfg : FieldCfg) :
    (∀ node, cfg.multiple = false → truthyStr cfg.attr = none →
      (item.sel cfg.selector).head? = some node →
      extract_field item cfg = .str (String.join (node.texts.map pyStrip))) ∧
    (cfg.multiple = true → truthyStr cfg.attr = none →
      extract_field item cfg =
        .list ((item.sel cfg.selector).map (fun el => String.join (el.texts.map pyStrip)))) := by
  constructor
  · intro node hm ha hhead
    simp only [extract_field, hm, Bool.false_eq_true, if_false, hhead, ha]
    rfl
  · intro hm ha
    simp only [extract_field, hm, if_true, ha]
    rfl

/-- Witness for the amended C5: a node with text `"  Hello   world \n"`
extracts to `"Hello   world"` (trimmed, internal run preserved). -/
theorem extract_field_text_strip_join_witness :
    extract_field (itemWith [leafNode [] ["  Hello   world \n"]]) ⟨"p", none, false⟩
      = .str "Hello   world" := by
  have h := (extract_field_text_strip_join
    (itemWith [leafNode [] ["  Hello   world \n"]]) ⟨"p", none, false⟩).1
    (leafNode [] ["  Hello   world \n"]) rfl rfl rfl
  rw [h]
  decide

/-! ### Helper lemmas for URL resolution -/

theorem dropWhile_append_of_all {α : Type} (p : α → Bool) (l m : List α)
    (h : ∀ x ∈ l, p x) : (l ++ m).dropWhile p = m.dropWhile p := by
  induction l with
  | nil => rfl
  | cons a t ih =>
    simp only [List.cons_append, List.dropWhile_cons, h a (by simp)]
    exact ih (fun x hx => h x (by simp [hx]))

theorem headq_dropWhile_false {α : Type} (p : α → Bool) (a : α) :
    ∀ l : List α, (l.dropWhile p).head? = some a → p a = false := by
  intro l
  induction l with
  | nil => intro h; simp at h
  | cons b t ih =>
    intro h
    rw [List.dropWhile_cons] at h
    by_cases hp : p b = true
    · rw [if_pos hp] at h
      exact ih h
    · rw [if_neg hp] at h
      simp only [List.head?_cons, Option.some.injEq] at h
      subst h
      simpa using hp

theorem rsplitBeforeSlash_append_slash (s : String) (hs : '/' ∈ s.data) :
    rsplitBeforeSlash s ++ "/" = upToLastSlash s := by
  have hr : s.data.reverse.dropWhile (fun c => c ≠ '/') ≠ [] := by
    intro hnil
    rw [List.dropWhile_eq_nil_iff] at hnil
    have h2 := hnil '/' (by simpa using hs)
    simp at h2
  obtain ⟨c, rest, hcr⟩ := List.exists_cons_of_ne_nil hr
  have hcfalse := headq_dropWhile_false (fun c => c ≠ '/') c s.data.reverse
    (by rw [hcr]; rfl)
  have hc : c = '/' := by simpa using hcfalse
  subst hc
  unfold rsplitBeforeSlash upToLastSlash
  simp only [hcr]
  rw [if_neg (by simp)]
  apply String.ext
  simp [String.data_append, List.reverse_cons]

theorem urlunparseBase_eq (sch nl : List Char) (hs : sch ≠ []) (hn : nl ≠ []) :
    urlunparseBase sch nl = sch ++ [':', '/', '/'] ++ nl := by
  unfold urlunparseBase
  rw [if_neg (by simpa using hs), if_neg (by simpa using hn)]
  simp

/-- C1: for a well-formed current URL — nonempty scheme and authority
under `urllib.parse`, and containing a slash (any `http(s)://host...`
URL qualifies) — the next-URL resolution in `scrape` follows the
four-branch algorithm of spec §4.2 exactly, for every raw href. -/
theorem resolveNext_follows_spec (cur h : String)
    (hsch : pyScheme cur ≠ []) (hnl : pyNetloc cur ≠ [])
    (hslash : '/' ∈ cur.data) :
    resolveNext cur h = resolveNextSpec cur h := by
  unfold resolveNext resolveNextSpec
  split_ifs with h1 h2 h3 h4
  · rfl
  · rfl
  · congr 1
    apply String.ext
    rw [urlunparseBase_eq (pyScheme cur) (pyNetloc cur) hsch hnl]
    have hsep : ("://" : String).data = [':', '/', '/'] := rfl
    simp [schemeAuthority, String.data_append, hsep, List.append_assoc]
  · rfl
  · rw [← rsplitBeforeSlash_append_slash cur hslash]

/-- Witness for C1 at a concrete well-formed URL and relative href. -/
theorem resolveNext_follows_spec_witness :
    pyScheme "http://example.com/items/list" ≠ [] ∧
    pyNetloc "http://example.com/items/list" ≠ [] ∧
    '/' ∈ "http://example.com/items/list".data ∧
    resolveNext "http://example.com/items/list" "page2"
      = resolveNextSpec "http://example.com/items/list" "page2" :=
  ⟨by decide, by decide, by decide,
    resolveNext_follows_spec "http://example.com/items/list" "page2"
      (by decide) (by decide) (by decide)⟩

/-- C9: when the current URL has no path component (its only slashes are
the two after the scheme) and the href is relative, the fourth branch
splits the URL at its last `/` — the one inside `://` — and so drops the
host entirely: the result is `scheme://href`. -/
theorem resolveNext_hostOnly_drops_host (sch host h : String)
    (hhost : '/' ∉ host.data) (hne : host ≠ "")
    (h1 : startsWithS "http://" h = false) (h2 : startsWithS "https://" h = false)
    (h3 : startsWithS "/" h = false) :
    resolveNext (sch ++ "://" ++ host) h = sch ++ "://" ++ h := by
  have hsep : ("://" : String).data = [':', '/', '/'] := rfl
  have hdata : (sch ++ "://" ++ host).data = sch.data ++ [':', '/', '/'] ++ host.data := by
    simp [String.data_append, hsep]
  have hhostdata : host.data ≠ [] := fun hh => hne (String.ext hh)
  have hend : endsWithSlash (sch ++ "://" ++ host) = false := by
    unfold endsWithSlash
    rw [hdata, List.append_assoc,
      List.getLast?_append_of_ne_nil _ (by simp [hhostdata]),
      List.getLast?_append_of_ne_nil _ hhostdata,
      List.getLast?_eq_getLast_of_ne_nil hhostdata]
    rw [beq_eq_false_iff_ne]
    simp only [ne_eq, Option.some.injEq]
    intro hlast
    exact hhost (hlast ▸ List.getLast_mem hhostdata)
  unfold resolveNext
  rw [h1, h2, hend, h3]
  simp only [Bool.or_self, Bool.false_and, if_false]
  have hrev : (sch ++ "://" ++ host).data.reverse
      = host.data.reverse ++ (['/', '/', ':'] ++ sch.data.reverse) := by
    rw [hdata]
    simp [List.reverse_append]
  have hdw : (sch ++ "://" ++ host).data.reverse.dropWhile (fun c => c ≠ '/')
      = '/' :: ('/' :: ':' :: sch.data.reverse) := by
    rw [hrev, dropWhile_append_of_all _ _ _ ?all]
    · simp only [List.cons_append, List.nil_append, List.dropWhile_cons]
      simp
    case all =>
      intro x hx
      simp only [List.mem_reverse] at hx
      simp only [decide_eq_true_eq]
      exact fun hxeq => hhost (hxeq ▸ hx)
  have hrsplit : rsplitBeforeSlash (sch ++ "://" ++ host) = ⟨sch.data ++ [':', '/']⟩ := by
    unfold rsplitBeforeSlash
    simp only [hdw]
    rw [if_neg (by simp)]
    simp [List.reverse_cons, List.append_assoc]
  rw [hrsplit]
  apply String.ext
  simp [String.data_append, hsep, List.append_assoc]

/-- Witness for C9: `cur = "http://example.com"`, `h = "page2"` resolves
to `"http://page2"`, dropping the host. -/
theorem resolveNext_hostOnly_drops_host_witness :
    resolveNext "http://example.com" "page2" = "http://page2" := by
  have h := resolveNext_hostOnly_drops_host "http" "example.com" "page2"
    (by decide) (by decide) (by decide) (by decide) (by decide)
  exact h

/-! ### Helper lemmas for the scrape loop -/

theorem truthyStr_some_ne_empty (o : Option String) (s : String)
    (h : truthyStr o = some s) : s ≠ "" := by
  cases o with
  | none => cases h
  | some t =>
    simp only [truthyStr] at h
    split at h
    · cases h
    · injection h with h
      subst h
      assumption

theorem hrefOf_some_ne_empty (soup : Node) (sel href : String)
    (h : hrefOf soup sel = some href) : href ≠ "" := by
  unfold hrefOf at h
  cases hlink : soup.selectOne sel with
  | none => rw [hlink] at h; cases h
  | some link =>
    rw [hlink] at h
    exact truthyStr_some_ne_empty _ _ h

theorem append_ne_empty_of_right (a b : String) (hb : b ≠ "") : a ++ b ≠ "" := by
  intro he
  apply hb
  apply String.ext
  have h2 : (a ++ b).data = [] := congrArg String.data he
  rw [String.data_append] at h2
  exact (List.append_eq_nil.mp h2).2

/-- A nonempty href always resolves to a nonempty next URL: every branch
of the resolution either returns `h` or appends `h` to something. -/
theorem resolveNext_ne_empty (cur h : String) (hh : h ≠ "") :
    resolveNext cur h ≠ "" := by
  unfold resolveNext
  split_ifs with h1 h2 h3 h4
  · exact hh
  · exact append_ne_empty_of_right _ _ hh
  · exact append_ne_empty_of_right _ _ hh
  · exact append_ne_empty_of_right _ _ hh
  · exact append_ne_empty_of_right _ _ hh

/-- Characterization of one run: the accumulated results are exactly the
per-page records of the successfully fetched pages of the trace, pages
in fetch order, items in selection order, one record per item. -/
theorem scrapeGo_results_eq (fetch : String → Option Node) (cfg : ScrapeConfig) :
    ∀ (fuel : Nat) (st : LoopState),
      (scrapeGo fetch cfg fuel st).1 =
        st.results ++ ((scrapeGo fetch cfg fuel st).2.filterMap fetch).flatMap
          (fun soup => (soup.sel cfg.item_selector).map (buildRow cfg.fields)) := by
  intro fuel
  induction fuel with
  | zero => intro st; simp [scrapeGo]
  | succ fuel ih =>
    intro st
    simp only [scrapeGo]
    by_cases hurl : st.currentUrl = ""
    · simp [hurl]
    · rw [if_neg hurl]
      cases hfetch : fetch st.currentUrl with
      | none => simp [hfetch]
      | some soup =>
        simp only [hfetch]
        by_cases hmax : maxReached cfg st.pageIndex = true
        · simp [hmax, hfetch]
        · simp only [hmax, Bool.false_eq_true, if_false]
          cases hsel : cfg.nextSel with
          | none => simp [hsel, hfetch]
          | some sel =>
            simp only [hsel]
            cases hhref : hrefOf soup sel with
            | none => simp [hhref, hfetch]
            | some href =>
              simp only [hhref]
              rw [ih]
              simp [hfetch, List.append_assoc]

/-- C6: the ResultSet of a run is page-major — exactly the concatenation,
over the successfully fetched pages of the trace in fetch order, of that
page's items mapped one-to-one to records in selection order; no record
is dropped or deduplicated. -/
theorem scrape_results_page_major (fetch : String → Option Node)
    (cfg : ScrapeConfig) (fuel : Nat) :
    (scrape fetch cfg fuel).1 =
      ((scrape fetch cfg fuel).2.filterMap fetch).flatMap
        (fun soup => (soup.sel cfg.item_selector).map (buildRow cfg.fields)) := by
  have h := scrapeGo_results_eq fetch cfg fuel ⟨[], cfg.start_url, 1⟩
  simpa [scrape] using h

/-- Value shape dictated by a rule: a string iff `multiple` is unset,
a list iff it is set. -/
def shapeOk (cfg : FieldCfg) : Value → Bool
  | .str _ => !cfg.multiple
  | .list _ => cfg.multiple

theorem buildRow_forall₂ (fields : List (String × FieldCfg)) (item : Node) :
    List.Forall₂ (fun f e => e.1 = f.1 ∧ shapeOk f.2 e.2 = true)
      fields (buildRow fields item) := by
  induction fields with
  | nil => exact List.Forall₂.nil
  | cons f t ih =>
    refine List.Forall₂.cons ⟨rfl, ?_⟩ ih
    cases hm : f.2.multiple with
    | false =>
      simp only [extract_field, hm, Bool.false_eq_true, if_false]
      cases (item.sel f.2.selector).head? with
      | none => simp [shapeOk, hm]
      | some el => cases truthyStr f.2.attr <;> simp [shapeOk, hm]
    | true =>
      simp only [extract_field, hm, if_true]
      cases truthyStr f.2.attr <;> simp [shapeOk, hm]

/-- C7: every record of one run carries exactly the configured field
names, in field-mapping order, and each value's shape is determined
statically by the rule's `multiple` flag — a single string when it is
false, a sequence of strings when it is true. -/
theorem scrape_record_schema (fetch : String → Option Node) (cfg : ScrapeConfig)
    (fuel : Nat) (record : List (String × Value))
    (hmem : record ∈ (scrape fetch cfg fuel).1) :
    record.map Prod.fst = cfg.fields.map Prod.fst ∧
    List.Forall₂ (fun f e => e.1 = f.1 ∧ shapeOk f.2 e.2 = true)
      cfg.fields record := by
  have h := scrapeGo_results_eq fetch cfg fuel ⟨[], cfg.start_url, 1⟩
  rw [scrape, h] at hmem
  simp only [List.nil_append, List.mem_flatMap, List.mem_map] at hmem
  obtain ⟨soup, _, item, _, hrec⟩ := hmem
  subst hrec
  constructor
  · simp [buildRow, Function.comp]
  · exact buildRow_forall₂ cfg.fields item

/-! ### Fixtures for a concrete two-item single-page run -/

/-- First item of the fixture page: its `h2` selection holds one node
with text `"First"`. -/
def itemFirst : Node := itemWith [leafNode [] ["First"]]

/-- Second item of the fixture page. -/
def itemSecond : Node := itemWith [leafNode [] ["Second"]]

/-- A page with two `.item` nodes and nothing else selectable. -/
def pageTwoItems : Node :=
  .mk [] [] (fun s => if s = ".item" then [itemFirst, itemSecond] else [])

/-- A transport that serves the fixture page for every URL. -/
def fetchTwoItems : String → Option Node := fun _ => some pageTwoItems

/-- Config: items `.item`, one `title` field from `h2` text, no
pagination. -/
def cfgTitle : ScrapeConfig :=
  ⟨"http://s/", ".item", [("title", ⟨"h2", none, false⟩)], 0, none⟩

/-- Witness for C7 on the concrete two-item run: the first extracted
record is a member of the ResultSet and has the configured schema. -/
theorem scrape_record_schema_witness :
    [("title", Value.str "First")] ∈ (scrape fetchTwoItems cfgTitle 1).1 ∧
    [("title", Value.str "First")].map Prod.fst = cfgTitle.fields.map Prod.fst := by
  refine ⟨by decide, ?_⟩
  exact (scrape_record_schema fetchTwoItems cfgTitle 1
    [("title", Value.str "First")] (by decide)).1

/-! ### Trace-length lemmas (claim C2) -/

theorem scrapeGo_trace_bound (fetch : String → Option Node) (cfg : ScrapeConfig)
    (N : Nat) (hN : cfg.maxPages = some (N : Int)) :
    ∀ (fuel : Nat) (st : LoopState), st.pageIndex ≤ N →
      (scrapeGo fetch cfg fuel st).2.length + st.pageIndex ≤ N + 1 := by
  intro fuel
  induction fuel with
  | zero =>
    intro st hle
    have hz : (scrapeGo fetch cfg 0 st).2.length = 0 := rfl
    omega
  | succ fuel ih =>
    intro st hle
    simp only [scrapeGo]
    by_cases hurl : st.currentUrl = ""
    · simp [hurl]
      omega
    · rw [if_neg hurl]
      cases hfetch : fetch st.currentUrl with
      | none =>
        simp
        omega
      | some soup =>
        by_cases hmax : maxReached cfg st.pageIndex = true
        · simp [hmax]
          omega
        · simp only [hmax, Bool.false_eq_true, if_false]
          cases hsel : cfg.nextSel with
          | none =>
            simp [hsel]
            omega
          | some sel =>
            simp only [hsel]
            cases hhref : hrefOf soup sel with
            | none =>
              simp [hhref]
              omega
            | some href =>
              simp only [hhref]
              have hlt : st.pageIndex < N := by
                simp only [maxReached, hN, decide_eq_true_eq] at hmax
                omega
              have hrec : (scrapeGo fetch cfg fuel
                  ⟨st.results ++ (soup.sel cfg.item_selector).map (buildRow cfg.fields),
                    resolveNext st.currentUrl href, st.pageIndex + 1⟩).2.length
                  + (st.pageIndex + 1) ≤ N + 1 :=
                ih ⟨st.results ++ (soup.sel cfg.item_selector).map (buildRow cfg.fields),
                    resolveNext st.currentUrl href, st.pageIndex + 1⟩ (by exact hlt)
              simp only [List.length_cons]
              omega

theorem scrapeGo_trace_exact (fetch : String → Option Node) (cfg : ScrapeConfig)
    (N : Nat) (hN : cfg.maxPages = some (N : Int))
    (sel : String) (hsel : cfg.nextSel = some sel)
    (hfetch : ∀ url : String, url ≠ "" →
      ∃ soup, fetch url = some soup ∧ ∃ href, hrefOf soup sel = some href) :
    ∀ (fuel : Nat) (st : LoopState), st.currentUrl ≠ "" → st.pageIndex ≤ N →
      N + 1 - st.pageIndex ≤ fuel →
      (scrapeGo fetch cfg fuel st).2.length + st.pageIndex = N + 1 := by
  intro fuel
  induction fuel with
  | zero =>
    intro st hurl hle hfuel
    omega
  | succ fuel ih =>
    intro st hurl hle hfuel
    obtain ⟨soup, hf, href, hh⟩ := hfetch st.currentUrl hurl
    simp only [scrapeGo]
    rw [if_neg hurl, hf]
    by_cases hmax : maxReached cfg st.pageIndex = true
    · have hidx : st.pageIndex = N := by
        simp only [maxReached, hN, decide_eq_true_eq] at hmax
        omega
      simp [hmax]
      omega
    · simp only [hmax, Bool.false_eq_true, if_false, hsel, hh]
      have hlt : st.pageIndex < N := by
        simp only [maxReached, hN, decide_eq_true_eq] at hmax
        omega
      have hne2 : resolveNext st.currentUrl href ≠ "" :=
        resolveNext_ne_empty _ _ (hrefOf_some_ne_empty soup sel href hh)
      have hrec : (scrapeGo fetch cfg fuel
          ⟨st.results ++ (soup.sel cfg.item_selector).map (buildRow cfg.fields),
            resolveNext st.currentUrl href, st.pageIndex + 1⟩).2.length
          + (st.pageIndex + 1) = N + 1 :=
        ih ⟨st.results ++ (soup.sel cfg.item_selector).map (buildRow cfg.fields),
            resolveNext st.currentUrl href, st.pageIndex + 1⟩
          (by exact hne2) (by exact hlt)
          (show N + 1 - (st.pageIndex + 1) ≤ fuel by omega)
      simp only [List.length_cons]
      omega

theorem scrapeGo_trace_unbounded (fetch : String → Option Node) (cfg : ScrapeConfig)
    (hN : cfg.maxPages = none)
    (sel : String) (hsel : cfg.nextSel = some sel)
    (hfetch : ∀ url : String, url ≠ "" →
      ∃ soup, fetch url = some soup ∧ ∃ href, hrefOf soup sel = some href) :
    ∀ (fuel : Nat) (st : LoopState), st.currentUrl ≠ "" →
      (scrapeGo fetch cfg fuel st).2.length = fuel := by
  intro fuel
  induction fuel with
  | zero => intro st hurl; rfl
  | succ fuel ih =>
    intro st hurl
    obtain ⟨soup, hf, href, hh⟩ := hfetch st.currentUrl hurl
    have hmax : maxReached cfg st.pageIndex = false := by
      simp [maxReached, hN]
    simp only [scrapeGo]
    rw [if_neg hurl, hf]
    simp only [hmax, Bool.false_eq_true, if_false, hsel, hh]
    simp only [List.length_cons]
    rw [ih ⟨st.results ++ (soup.sel cfg.item_selector).map (buildRow cfg.fields),
        resolveNext st.currentUrl href, st.pageIndex + 1⟩
      (by exact resolveNext_ne_empty _ _ (hrefOf_some_ne_empty soup sel href hh))]

/-- C2: pagination bound policy. (i) With `max_pages = N > 0` no run
issues more than `N` fetches, whatever the transport returns. (ii) Given
enough fuel, a transport whose every fetch succeeds with a page carrying
a valid next link produces exactly `N` fetches — the engine stops after
page `N` even though page `N` has a valid next link, because the
`max_pages` check precedes the next-link check. (iii) With
`max_pages = 0` the same transport keeps the loop running for the whole
fuel budget: the engine itself imposes no bound (unbounded). -/
theorem scrape_max_pages_policy :
    (∀ (fetch : String → Option Node) (cfg : ScrapeConfig) (N fuel : Nat),
      0 < N → cfg.max_pages = (N : Int) →
      (scrape fetch cfg fuel).2.length ≤ N) ∧
    (∀ (fetch : String → Option Node) (cfg : ScrapeConfig) (N fuel : Nat) (sel : String),
      0 < N → cfg.max_pages = (N : Int) → cfg.nextSel = some sel →
      cfg.start_url ≠ "" →
      (∀ url : String, url ≠ "" →
        ∃ soup, fetch url = some soup ∧ ∃ href, hrefOf soup sel = some href) →
      N ≤ fuel →
      (scrape fetch cfg fuel).2.length = N) ∧
    (∀ (fetch : String → Option Node) (cfg : ScrapeConfig) (fuel : Nat) (sel : String),
      cfg.max_pages = 0 → cfg.nextSel = some sel → cfg.start_url ≠ "" →
      (∀ url : String, url ≠ "" →
        ∃ soup, fetch url = some soup ∧ ∃ href, hrefOf soup sel = some href) →
      (scrape fetch cfg fuel).2.length = fuel) := by
  refine ⟨?_, ?_, ?_⟩
  · intro fetch cfg N fuel hpos hmp
    have hN : cfg.maxPages = some (N : Int) := by
      unfold ScrapeConfig.maxPages
      rw [hmp, if_neg (Int.natCast_ne_zero.mpr (Nat.pos_iff_ne_zero.mp hpos))]
    have h : (scrapeGo fetch cfg fuel ⟨[], cfg.start_url, 1⟩).2.length + 1 ≤ N + 1 :=
      scrapeGo_trace_bound fetch cfg N hN fuel ⟨[], cfg.start_url, 1⟩ (by exact hpos)
    show (scrapeGo fetch cfg fuel ⟨[], cfg.start_url, 1⟩).2.length ≤ N
    omega
  · intro fetch cfg N fuel sel hpos hmp hsel hstart hfetch hfuel
    have hN : cfg.maxPages = some (N : Int) := by
      unfold ScrapeConfig.maxPages
      rw [hmp, if_neg (Int.natCast_ne_zero.mpr (Nat.pos_iff_ne_zero.mp hpos))]
    have h : (scrapeGo fetch cfg fuel ⟨[], cfg.start_url, 1⟩).2.length + 1 = N + 1 :=
      scrapeGo_trace_exact fetch cfg N hN sel hsel hfetch fuel ⟨[], cfg.start_url, 1⟩
        (by exact hstart) (by exact hpos) (show N + 1 - 1 ≤ fuel by omega)
    show (scrapeGo fetch cfg fuel ⟨[], cfg.start_url, 1⟩).2.length = N
    omega
  · intro fetch cfg fuel sel hmp hsel hstart hfetch
    have hN : cfg.maxPages = none := by
      unfold ScrapeConfig.maxPages
      rw [hmp]
      rfl
    exact scrapeGo_trace_unbounded fetch cfg hN sel hsel hfetch fuel
      ⟨[], cfg.start_url, 1⟩ (by exact hstart)

/-! ### Fixtures for pagination runs -/

/-- A page with no items whose next link is `href="next"`. -/
def pageLinked : Node :=
  .mk [] [] (fun s => if s = "a.next" then [leafNode [("href", "next")] []] else [])

/-- A transport serving `pageLinked` for every URL: every fetch succeeds
and every page carries a valid next link. -/
def fetchLinked : String → Option Node := fun _ => some pageLinked

/-- Config with `max_pages = 2` and a next-page selector. -/
def cfgMax2 : ScrapeConfig := ⟨"http://s/", ".item", [], 2, some "a.next"⟩

/-- Same config with `max_pages = 0` (unbounded). -/
def cfgUnbounded : ScrapeConfig := ⟨"http://s/", ".item", [], 0, some "a.next"⟩

/-- Witness for C2: on an always-linked transport, `max_pages = 2` stops
after exactly 2 fetches even with 5 fuel, while `max_pages = 0` consumes
all 5. -/
theorem scrape_max_pages_policy_witness :
    (scrape fetchLinked cfgMax2 5).2.length = 2 ∧
    (scrape fetchLinked cfgUnbounded 5).2.length = 5 := by
  constructor
  · exact scrape_max_pages_policy.2.1 fetchLinked cfgMax2 2 5 "a.next" (by decide)
      (by decide) (by decide) (by decide)
      (fun url hurl => ⟨pageLinked, rfl, "next", by decide⟩) (by omega)
  · exact scrape_max_pages_policy.2.2 fetchLinked cfgUnbounded 5 "a.next" (by decide)
      (by decide) (by decide)
      (fun url hurl => ⟨pageLinked, rfl, "next", by decide⟩)

/-! ### Fixtures for the fetch-failure scenario (claim C3) -/

/-- First item of page 1 in the failure scenario. -/
def itemP1A : Node := itemWith [leafNode [] ["A1"]]

/-- Second item of page 1 in the failure scenario. -/
def itemP1B : Node := itemWith [leafNode [] ["B1"]]

/-- Page 1 of a 3-page sequence: two items, next link to `p2`. -/
def pageOne : Node :=
  .mk [] [] (fun s =>
    if s = ".item" then [itemP1A, itemP1B]
    else if s = "a.next" then [leafNode [("href", "p2")] []] else [])

/-- A transport where page 1 fetches fine and everything else — page 2
in particular — fails. -/
def fetchFailP2 : String → Option Node := fun url =>
  if url = "http://site/p1" then some pageOne else none

/-- Three-page config for the failure scenario. -/
def cfgThreePages : ScrapeConfig :=
  ⟨"http://site/p1", ".item", [("title", ⟨"h2", none, false⟩)], 3, some "a.next"⟩

/-- C3: a fetch failure terminates the loop gracefully: from any loop
state, a failing fetch makes `scrape` return exactly the records
accumulated from the preceding pages — the failure is a logged early
return in `fetch_page`/`scrape`, not an exception — and concretely, a
3-page run whose page-2 fetch fails returns page 1's two records only. -/
theorem scrape_fetch_failure_partial :
    (∀ (fetch : String → Option Node) (cfg : ScrapeConfig) (fuel : Nat) (st : LoopState),
      st.currentUrl ≠ "" → fetch st.currentUrl = none →
      scrapeGo fetch cfg (fuel + 1) st = (st.results, [st.currentUrl])) ∧
    scrape fetchFailP2 cfgThreePages 9
      = ([[("title", Value.str "A1")], [("title", Value.str "B1")]],
          ["http://site/p1", "http://site/p2"]) := by
  constructor
  · intro fetch cfg fuel st hurl hf
    simp only [scrapeGo]
    rw [if_neg hurl, hf]
  · decide

/-- Witness for C3 at the failing page-2 state of the concrete scenario. -/
theorem scrape_fetch_failure_partial_witness :
    scrapeGo fetchFailP2 cfgThreePages 1
      ⟨[[("title", Value.str "A1")]], "http://site/p2", 2⟩
      = ([[("title", Value.str "A1")]], ["http://site/p2"]) :=
  scrape_fetch_failure_partial.1 fetchFailP2 cfgThreePages 0
    ⟨[[("title", Value.str "A1")]], "http://site/p2", 2⟩ (by decide) (by rfl)

/-- C8: CSV serialization. An empty ResultSet produces no CSV document;
a nonempty one gets a header row equal to the first record's keys,
followed by one data row per record; the cell of any column whose value
in the record is a list is its elements joined with `", "`; concretely
the record `{"tags": ["a","b"]}` yields the cell `"a, b"`. -/
theorem save_as_csv_spec :
    (save_as_csv [] = none) ∧
    (∀ (r0 : List (String × Value)) (rs : List (List (String × Value))),
      save_as_csv (r0 :: rs)
        = some ((r0.map Prod.fst) :: (r0 :: rs).map (csvRow (r0.map Prod.fst)))) ∧
    (∀ (fns : List String) (row : List (String × Value)) (i : Nat) (k : String)
      (l : List String), fns[i]? = some k → lookupVal row k = some (.list l) →
      (csvRow fns row)[i]? = some (String.intercalate ", " l)) ∧
    (save_as_csv [[("tags", Value.list ["a", "b"])]] = some [["tags"], ["a, b"]]) := by
  refine ⟨rfl, ?_, ?_, by decide⟩
  · intro r0 rs
    rfl
  · intro fns row i k l hk hv
    unfold csvRow
    rw [List.getElem?_map, hk]
    simp [hv, flattenCell]

/-- Witness for C8: the `tags` column of a concrete record flattens to
the single cell `"a, b"`. -/
theorem save_as_csv_spec_witness :
    (csvRow ["tags"] [("tags", Value.list ["a", "b"])])[0]? = some "a, b" :=
  save_as_csv_spec.2.2.1 ["tags"] [("tags", Value.list ["a", "b"])] 0 "tags"
    ["a", "b"] (by decide) (by decide)

/-- C10: the JSON document is produced on every run — on an empty
ResultSet it is the empty array `[]` — while the CSV document is the
only output skipped on an empty ResultSet (on any nonempty ResultSet
both documents are produced). -/
theorem main_outputs_always_json :
    (mainOutputs [] = ("[]", none)) ∧
    (∀ rows : List (List (String × Value)), rows ≠ [] →
      ∃ tbl, mainOutputs rows = (save_as_json rows, some tbl)) := by
  constructor
  · rfl
  · intro rows hrows
    match rows with
    | [] => exact absurd rfl hrows
    | r0 :: rs => exact ⟨_, rfl⟩

/-- Witness for C10 on a one-record ResultSet: both documents appear. -/
theorem main_outputs_always_json_witness :
    ∃ tbl, mainOutputs [[("a", Value.str "b")]]
      = (save_as_json [[("a", Value.str "b")]], some tbl) :=
  main_outputs_always_json.2 [[("a", Value.str "b")]] (by decide)

end WebScraper
